import Mathlib

/-!
# Verification of the starter-pack card layout engine

Shallow embedding, over exact rational arithmetic, of the geometric layout
engine of this repository (src/PrintMaker/blender2.py, src/starter_pack_layout.py
and the Blender script emitted by src/PrintMaker/starter_pack_layout.py).

Objects are modelled by their world axis-aligned bounding boxes; the engine only
ever queries AABBs and applies rigid transforms and uniform scales, so each
operation is translated as a pure function on AABB data, following the source
line by line.  Floating-point numbers are modelled as rationals; the float
literals 1e-9, 1e-6 and 1e18 of the source become the corresponding rational
constants, and the isfinite guards of the source are noted where they become
vacuous in exact arithmetic.
-/

/-- A 3D vector (or a triple of extents) in millimetres, as in mathutils.Vector. -/
structure Vec3 where
  x : ℚ
  y : ℚ
  z : ℚ
deriving DecidableEq, Repr

/-- The epsilon of uniform_fit in blender2.py: eps = 1e-9. -/
def ufEps : ℚ := 1 / 1000000000

/-- The floor used for the effective targets in uniform_fit: 1e-6. -/
def ufFloor : ℚ := 1 / 1000000

/-- Result of uniform_fit: the uniform factor multiplied onto the object's scale
(1 when the function returns without scaling) and the returned world Z extent. -/
structure FitResult where
  factor : ℚ
  finalDepth : ℚ
deriving DecidableEq, Repr

/-- uniform_fit(obj, target_w, target_h, margin, target_d) from
src/PrintMaker/blender2.py lines 582-621, on the object's current world
dims d.  Mirrors the source: the degenerate-dims early return, the
floors tw = max(1e-6, target_w - 2*margin) and th likewise, the candidate
list [tw/max(d.x,eps), th/max(d.y,eps)] extended with
max(1e-6,target_d)/max(d.z,eps) when target_d is given, the minimum, the
guard replacing a non-finite or non-positive factor by 1.0 (in exact
rational arithmetic only the s <= 0 half of that guard is expressible),
obj.scale *= s, and the returned world Z extent after scaling. -/
def uniform_fit (d : Vec3) (target_w target_h margin : ℚ) (target_d : Option ℚ) :
    FitResult :=
  if d.x < ufEps ∨ d.y < ufEps ∨ (target_d.isSome ∧ d.z < ufEps) then
    { factor := 1, finalDepth := d.z }
  else
    let tw := max ufFloor (target_w - 2 * margin)
    let th := max ufFloor (target_h - 2 * margin)
    let base := min (tw / max d.x ufEps) (th / max d.y ufEps)
    let s0 :=
      match target_d with
      | some td0 => min base (max ufFloor td0 / max d.z ufEps)
      | none => base
    let s := if s0 ≤ 0 then 1 else s0
    { factor := s, finalDepth := d.z * s }

/-- The scale factor that the claim attributes to uniform_fit: the depth
candidate is target_depth/d.z with no floor on target_depth, and 1.0 is
substituted when the minimum is not positive.  Stated from the claim's own
words, for comparison with the source function uniform_fit. -/
def uniform_fit_claimed_factor (d : Vec3) (target_w target_h margin : ℚ)
    (target_d : Option ℚ) : ℚ :=
  let tw := max ufFloor (target_w - 2 * margin)
  let th := max ufFloor (target_h - 2 * margin)
  let base := min (tw / d.x) (th / d.y)
  let s0 :=
    match target_d with
    | some td0 => min base (td0 / d.z)
    | none => base
  if s0 ≤ 0 then 1 else s0

/-- C1, counterexample.  For dims (200,40,10), target 100 x 50, margin 5 and
target_depth 0 the claim's formula yields the candidate 0/10 = 0, hence a
minimum <= 0, hence a substituted factor of 1.0; the code instead floors the
depth target at 1e-6 and applies the factor 1e-6/10 = 1e-7, so the applied
factor differs from the claimed one. -/
theorem uniform_fit_claim_counterexample :
    uniform_fit_claimed_factor ⟨200, 40, 10⟩ 100 50 5 (some 0) = 1 ∧
    (uniform_fit ⟨200, 40, 10⟩ 100 50 5 (some 0)).factor = 1 / 10000000 ∧
    (uniform_fit ⟨200, 40, 10⟩ 100 50 5 (some 0)).factor ≠
      uniform_fit_claimed_factor ⟨200, 40, 10⟩ 100 50 5 (some 0) := by
  refine ⟨?_, ?_, ?_⟩ <;>
    norm_num [uniform_fit, uniform_fit_claimed_factor, ufEps, ufFloor, min_def, max_def]

/-- C1, amended: in uniform_fit, if a relevant world extent is below the
epsilon 1e-9 no scale is applied and the current depth is returned unchanged;
otherwise the applied factor is the minimum of tw/d.x, th/d.y (with
tw = max(1e-6, target_w - 2*margin), th likewise) and, when a depth target is
given, max(1e-6, target_depth)/d.z — the depth target floored at 1e-6, which
is the amendment — and the returned value is the world Z extent after
scaling, d.z times the factor.  For target_w = 100, target_h = 50, margin = 5
and dims (200,40,10) the factor is min(90/200, 40/40) = 0.45. -/
theorem uniform_fit_correct :
    (∀ (d : Vec3) (tw th m : ℚ) (td : Option ℚ),
      (d.x < ufEps ∨ d.y < ufEps ∨ (td.isSome ∧ d.z < ufEps)) →
      uniform_fit d tw th m td = { factor := 1, finalDepth := d.z }) ∧
    (∀ (d : Vec3) (tw th m : ℚ),
      ufEps ≤ d.x → ufEps ≤ d.y →
      (uniform_fit d tw th m none).factor =
        min (max ufFloor (tw - 2 * m) / d.x) (max ufFloor (th - 2 * m) / d.y) ∧
      (uniform_fit d tw th m none).finalDepth =
        d.z * (uniform_fit d tw th m none).factor) ∧
    (∀ (d : Vec3) (tw th m td : ℚ),
      ufEps ≤ d.x → ufEps ≤ d.y → ufEps ≤ d.z →
      (uniform_fit d tw th m (some td)).factor =
        min (min (max ufFloor (tw - 2 * m) / d.x) (max ufFloor (th - 2 * m) / d.y))
          (max ufFloor td / d.z) ∧
      (uniform_fit d tw th m (some td)).finalDepth =
        d.z * (uniform_fit d tw th m (some td)).factor) ∧
    (uniform_fit ⟨200, 40, 10⟩ 100 50 5 none).factor = 9 / 20 := by
  have hpos : (0 : ℚ) < ufEps := by norm_num [ufEps]
  have hfl : (0 : ℚ) < ufFloor := by norm_num [ufFloor]
  refine ⟨?_, ?_, ?_, ?_⟩
  · intro d tw th m td h
    unfold uniform_fit
    rw [if_pos h]
  · intro d tw th m hx hy
    have hcond : ¬ (d.x < ufEps ∨ d.y < ufEps ∨
        ((none : Option ℚ).isSome ∧ d.z < ufEps)) := by
      push_neg
      exact ⟨hx, hy, fun h => absurd h (by simp)⟩
    have hdx : (0 : ℚ) < d.x := lt_of_lt_of_le hpos hx
    have hdy : (0 : ℚ) < d.y := lt_of_lt_of_le hpos hy
    have hmin : 0 < min (max ufFloor (tw - 2 * m) / d.x)
        (max ufFloor (th - 2 * m) / d.y) := by
      apply lt_min
      · exact div_pos (lt_of_lt_of_le hfl (le_max_left _ _)) hdx
      · exact div_pos (lt_of_lt_of_le hfl (le_max_left _ _)) hdy
    unfold uniform_fit
    rw [if_neg hcond]
    simp only [max_eq_left hx, max_eq_left hy]
    rw [if_neg (not_le.mpr hmin)]
    exact ⟨rfl, trivial⟩
  · intro d tw th m td hx hy hz
    have hcond : ¬ (d.x < ufEps ∨ d.y < ufEps ∨
        ((some td).isSome ∧ d.z < ufEps)) := by
      push_neg
      exact ⟨hx, hy, fun _ => hz⟩
    have hdx : (0 : ℚ) < d.x := lt_of_lt_of_le hpos hx
    have hdy : (0 : ℚ) < d.y := lt_of_lt_of_le hpos hy
    have hdz : (0 : ℚ) < d.z := lt_of_lt_of_le hpos hz
    have hmin : 0 < min (min (max ufFloor (tw - 2 * m) / d.x)
        (max ufFloor (th - 2 * m) / d.y)) (max ufFloor td / d.z) := by
      apply lt_min
      · apply lt_min
        · exact div_pos (lt_of_lt_of_le hfl (le_max_left _ _)) hdx
        · exact div_pos (lt_of_lt_of_le hfl (le_max_left _ _)) hdy
      · exact div_pos (lt_of_lt_of_le hfl (le_max_left _ _)) hdz
    unfold uniform_fit
    rw [if_neg hcond]
    simp only [max_eq_left hx, max_eq_left hy, max_eq_left hz]
    rw [if_neg (not_le.mpr hmin)]
    exact ⟨rfl, trivial⟩
  · norm_num [uniform_fit, ufEps, ufFloor, min_def, max_def]

/-- C1, witness: the amended theorem at concrete inputs, dims (200,40,10),
targets 100 x 50, margin 5, no depth target. -/
theorem uniform_fit_correct_witness :
    (uniform_fit ⟨200, 40, 10⟩ 100 50 5 none).factor =
      min (max ufFloor ((100 : ℚ) - 2 * 5) / 200) (max ufFloor ((50 : ℚ) - 2 * 5) / 40) :=
  (uniform_fit_correct.2.1 ⟨200, 40, 10⟩ 100 50 5 (by norm_num [ufEps])
    (by norm_num [ufEps])).1

/-- A 3x3 matrix with integer entries.  Every rotation tried by
try_orient_longest_X_second_Y in src/starter_pack_layout.py is a multiple of
90 degrees, so its matrix entries are exactly 0, 1 or -1. -/
structure Mat3 where
  a00 : ℤ
  a01 : ℤ
  a02 : ℤ
  a10 : ℤ
  a11 : ℤ
  a12 : ℤ
  a20 : ℤ
  a21 : ℤ
  a22 : ℤ
deriving DecidableEq, Repr

/-- Matrix product, as the @ operator composing candidate rotations. -/
def Mat3.mul (A B : Mat3) : Mat3 :=
  ⟨A.a00 * B.a00 + A.a01 * B.a10 + A.a02 * B.a20,
   A.a00 * B.a01 + A.a01 * B.a11 + A.a02 * B.a21,
   A.a00 * B.a02 + A.a01 * B.a12 + A.a02 * B.a22,
   A.a10 * B.a00 + A.a11 * B.a10 + A.a12 * B.a20,
   A.a10 * B.a01 + A.a11 * B.a11 + A.a12 * B.a21,
   A.a10 * B.a02 + A.a11 * B.a12 + A.a12 * B.a22,
   A.a20 * B.a00 + A.a21 * B.a10 + A.a22 * B.a20,
   A.a20 * B.a01 + A.a21 * B.a11 + A.a22 * B.a21,
   A.a20 * B.a02 + A.a21 * B.a12 + A.a22 * B.a22⟩

/-- Matrix.Identity(4), restricted to its rotation block. -/
def matId : Mat3 := ⟨1, 0, 0, 0, 1, 0, 0, 0, 1⟩

/-- Rotation by +90 degrees about X (Rx(90) in the source). -/
def rotX90 : Mat3 := ⟨1, 0, 0, 0, 0, -1, 0, 1, 0⟩

/-- Rotation by -90 degrees about X. -/
def rotXn90 : Mat3 := ⟨1, 0, 0, 0, 0, 1, 0, -1, 0⟩

/-- Rotation by +90 degrees about Y. -/
def rotY90 : Mat3 := ⟨0, 0, 1, 0, 1, 0, -1, 0, 0⟩

/-- Rotation by -90 degrees about Y. -/
def rotYn90 : Mat3 := ⟨0, 0, -1, 0, 1, 0, 1, 0, 0⟩

/-- Rotation by +90 degrees about Z. -/
def rotZ90 : Mat3 := ⟨0, -1, 0, 1, 0, 0, 0, 0, 1⟩

/-- Rotation by -90 degrees about Z. -/
def rotZn90 : Mat3 := ⟨0, 1, 0, -1, 0, 0, 0, 0, 1⟩

/-- The candidate list mats of try_orient_longest_X_second_Y
(src/starter_pack_layout.py lines 121-130), in source order: identity, the six
single-axis 90-degree rotations, then the four compound rotations. -/
def orientCandidates : List Mat3 :=
  [matId,
   rotX90, rotXn90,
   rotY90, rotYn90,
   rotZ90, rotZn90,
   rotX90.mul rotZ90,
   rotX90.mul rotZn90,
   rotY90.mul rotZ90,
   rotY90.mul rotZn90]

/-- Absolute value of an integer matrix entry, as a rational. -/
def absq (n : ℤ) : ℚ := (n.natAbs : ℚ)

/-- World AABB extents after applying the rotation M to the object
(obj.matrix_world = M @ mw_orig followed by world_dims).  Every candidate is a
signed permutation matrix, and for a signed permutation the world AABB of the
rotated geometry is exactly the image of the original AABB, so each new extent
is the sum of the old extents weighted by the absolute entries of M. -/
def dimsAfter (M : Mat3) (d : Vec3) : Vec3 :=
  ⟨absq M.a00 * d.x + absq M.a01 * d.y + absq M.a02 * d.z,
   absq M.a10 * d.x + absq M.a11 * d.y + absq M.a12 * d.z,
   absq M.a20 * d.x + absq M.a21 * d.y + absq M.a22 * d.z⟩

/-- The penalty of the orientation score (source lines 137-139): 1000 times
(d.y - d.x) when d.x < d.y, plus 1000 times (d.z - d.y) when d.y < d.z. -/
def orientPen (d : Vec3) : ℚ :=
  (if d.x < d.y then (d.y - d.x) * 1000 else 0) +
  (if d.y < d.z then (d.z - d.y) * 1000 else 0)

/-- score = -d.x + 0.1*d.z + pen (source line 140). -/
def orientScore (d : Vec3) : ℚ := -d.x + (1 / 10) * d.z + orientPen d

/-- best_score is initialised to 1e18 (source line 132). -/
def orientInit : ℚ := 10 ^ 18

/-- One iteration of the candidate loop (source lines 133-143): compute the
score of the candidate and keep it only on a strict improvement. -/
def orientStep (d : Vec3) (acc : Option Mat3 × ℚ) (M : Mat3) : Option Mat3 × ℚ :=
  if orientScore (dimsAfter M d) < acc.2 then (some M, orientScore (dimsAfter M d))
  else acc

/-- The committed rotation of try_orient_longest_X_second_Y: the fold of the
candidate loop starting from best = None, best_score = 1e18, returning best
(which the source then left-multiplies onto the object's transform). -/
def selectOrient (d : Vec3) : Option Mat3 :=
  (orientCandidates.foldl (orientStep d) (none, orientInit)).1

lemma dimsAfter_matId (d : Vec3) : dimsAfter matId d = d := by
  simp [dimsAfter, matId, absq]

lemma dimsAfter_rotX90 (d : Vec3) : dimsAfter rotX90 d = ⟨d.x, d.z, d.y⟩ := by
  simp [dimsAfter, rotX90, absq]

lemma dimsAfter_rotXn90 (d : Vec3) : dimsAfter rotXn90 d = ⟨d.x, d.z, d.y⟩ := by
  simp [dimsAfter, rotXn90, absq]

lemma dimsAfter_rotY90 (d : Vec3) : dimsAfter rotY90 d = ⟨d.z, d.y, d.x⟩ := by
  simp [dimsAfter, rotY90, absq]

lemma dimsAfter_rotYn90 (d : Vec3) : dimsAfter rotYn90 d = ⟨d.z, d.y, d.x⟩ := by
  simp [dimsAfter, rotYn90, absq]

lemma dimsAfter_rotZ90 (d : Vec3) : dimsAfter rotZ90 d = ⟨d.y, d.x, d.z⟩ := by
  simp [dimsAfter, rotZ90, absq]

lemma dimsAfter_rotZn90 (d : Vec3) : dimsAfter rotZn90 d = ⟨d.y, d.x, d.z⟩ := by
  simp [dimsAfter, rotZn90, absq]

lemma dimsAfter_rotX90Z90 (d : Vec3) :
    dimsAfter (rotX90.mul rotZ90) d = ⟨d.y, d.z, d.x⟩ := by
  simp [dimsAfter, rotX90, rotZ90, Mat3.mul, absq]

lemma dimsAfter_rotX90Zn90 (d : Vec3) :
    dimsAfter (rotX90.mul rotZn90) d = ⟨d.y, d.z, d.x⟩ := by
  simp [dimsAfter, rotX90, rotZn90, Mat3.mul, absq]

lemma dimsAfter_rotY90Z90 (d : Vec3) :
    dimsAfter (rotY90.mul rotZ90) d = ⟨d.z, d.x, d.y⟩ := by
  simp [dimsAfter, rotY90, rotZ90, Mat3.mul, absq]

lemma dimsAfter_rotY90Zn90 (d : Vec3) :
    dimsAfter (rotY90.mul rotZn90) d = ⟨d.z, d.x, d.y⟩ := by
  simp [dimsAfter, rotY90, rotZn90, Mat3.mul, absq]

/-- Characterisation of the candidate loop's fold: either no candidate in the
remaining list strictly improves on the incoming best score and the
accumulator is returned unchanged, or the fold returns the first candidate
attaining the minimum score, together with that minimality and the strictness
against every earlier candidate. -/
lemma orientStep_foldl_charact (d : Vec3) :
    ∀ (l : List Mat3) (o : Option Mat3) (s : ℚ),
      (l.foldl (orientStep d) (o, s) = (o, s) ∧
        ∀ M ∈ l, s ≤ orientScore (dimsAfter M d)) ∨
      (∃ i M, l.get? i = some M ∧
        l.foldl (orientStep d) (o, s) = (some M, orientScore (dimsAfter M d)) ∧
        orientScore (dimsAfter M d) < s ∧
        (∀ N ∈ l, orientScore (dimsAfter M d) ≤ orientScore (dimsAfter N d)) ∧
        (∀ j N, j < i → l.get? j = some N →
          orientScore (dimsAfter M d) < orientScore (dimsAfter N d))) := by
  intro l
  induction l with
  | nil =>
    intro o s
    left
    exact ⟨rfl, fun M hM => absurd hM (List.not_mem_nil M)⟩
  | cons a t ih =>
    intro o s
    rw [List.foldl_cons]
    by_cases h : orientScore (dimsAfter a d) < s
    · have hstep : orientStep d (o, s) a = (some a, orientScore (dimsAfter a d)) := by
        unfold orientStep
        rw [if_pos h]
      rw [hstep]
      rcases ih (some a) (orientScore (dimsAfter a d)) with
        ⟨heq, hall⟩ | ⟨i, M, hget, hfold, hlt, hmin, hfirst⟩
      · right
        refine ⟨0, a, rfl, heq, h, ?_, ?_⟩
        · intro N hN
          rcases List.mem_cons.mp hN with hNa | hNt
          · rw [hNa]
          · exact hall N hNt
        · intro j N hj _
          exact absurd hj (Nat.not_lt_zero j)
      · right
        refine ⟨i + 1, M, hget, hfold, lt_trans hlt h, ?_, ?_⟩
        · intro N hN
          rcases List.mem_cons.mp hN with hNa | hNt
          · rw [hNa]
            exact le_of_lt hlt
          · exact hmin N hNt
        · intro j N hj hgj
          cases j with
          | zero =>
            have hNa : N = a := by
              simpa using hgj.symm
            rw [hNa]
            exact hlt
          | succ j2 =>
            exact hfirst j2 N (Nat.lt_of_succ_lt_succ hj) (by simpa using hgj)
    · have hstep : orientStep d (o, s) a = (o, s) := by
        unfold orientStep
        rw [if_neg h]
      rw [hstep]
      rcases ih o s with ⟨heq, hall⟩ | ⟨i, M, hget, hfold, hlt, hmin, hfirst⟩
      · left
        refine ⟨heq, ?_⟩
        intro N hN
        rcases List.mem_cons.mp hN with hNa | hNt
        · rw [hNa]
          exact not_lt.mp h
        · exact hall N hNt
      · right
        refine ⟨i + 1, M, hget, hfold, hlt, ?_, ?_⟩
        · intro N hN
          rcases List.mem_cons.mp hN with hNa | hNt
          · rw [hNa]
            exact le_of_lt (lt_of_lt_of_le hlt (not_lt.mp h))
          · exact hmin N hNt
        · intro j N hj hgj
          cases j with
          | zero =>
            have hNa : N = a := by
              simpa using hgj.symm
            rw [hNa]
            exact lt_of_lt_of_le hlt (not_lt.mp h)
          | succ j2 =>
            exact hfirst j2 N (Nat.lt_of_succ_lt_succ hj) (by simpa using hgj)

/-- For AABB extents already sorted x >= y >= z >= 0, the identity candidate's
score is minimal over the whole candidate list: every candidate permutes the
extents, and the sorted arrangement maximises d.x, minimises the 0.1*d.z term
and incurs no penalty. -/
lemma orient_sorted_id_min (d : Vec3) (h0 : 0 ≤ d.z) (hzy : d.z ≤ d.y)
    (hyx : d.y ≤ d.x) :
    ∀ M ∈ orientCandidates,
      orientScore (dimsAfter matId d) ≤ orientScore (dimsAfter M d) := by
  intro M hM
  have hx0 : 0 ≤ d.x := le_trans (le_trans h0 hzy) hyx
  simp only [orientCandidates, List.mem_cons, List.not_mem_nil, or_false] at hM
  rcases hM with h | h | h | h | h | h | h | h | h | h | h <;> subst h <;>
    simp only [dimsAfter_matId, dimsAfter_rotX90, dimsAfter_rotXn90,
      dimsAfter_rotY90, dimsAfter_rotYn90, dimsAfter_rotZ90, dimsAfter_rotZn90,
      dimsAfter_rotX90Z90, dimsAfter_rotX90Zn90, dimsAfter_rotY90Z90,
      dimsAfter_rotY90Zn90, orientScore, orientPen] <;>
    split_ifs <;> linarith

/-- If the identity's score beats the 1e18 initialisation and is minimal over
the candidate list, the loop commits the identity (first-seen tie break). -/
lemma selectOrient_eq_id_of_min (d : Vec3)
    (hinit : orientScore (dimsAfter matId d) < orientInit)
    (hmin : ∀ M ∈ orientCandidates,
      orientScore (dimsAfter matId d) ≤ orientScore (dimsAfter M d)) :
    selectOrient d = some matId := by
  obtain ⟨t, ht⟩ : ∃ t, orientCandidates = matId :: t := ⟨_, rfl⟩
  have step1 : orientStep d (none, orientInit) matId =
      (some matId, orientScore (dimsAfter matId d)) := by
    unfold orientStep
    rw [if_pos]
    exact hinit
  unfold selectOrient
  rw [ht, List.foldl_cons, step1]
  rcases orientStep_foldl_charact d t (some matId)
      (orientScore (dimsAfter matId d)) with
    ⟨heq, _⟩ | ⟨i, M, hget, hfold, hlt, _, _⟩
  · rw [heq]
  · exfalso
    have hM : M ∈ orientCandidates := by
      rw [ht]
      exact List.mem_cons_of_mem _ (List.get?_mem hget)
    exact absurd hlt (not_lt.mpr (hmin M hM))

/-- Concrete run of the orientation search on dims (10,5,20): the winner is
the compound candidate Ry(90) @ Rz(90), giving dims (20,10,5). -/
lemma selectOrient_10_5_20 :
    selectOrient ⟨10, 5, 20⟩ = some (rotY90.mul rotZ90) := by
  norm_num [selectOrient, orientCandidates, orientStep, orientScore, orientPen,
    dimsAfter, absq, matId, rotX90, rotXn90, rotY90, rotYn90, rotZ90, rotZn90,
    Mat3.mul, orientInit]

/-- C2: the orientation search scores each candidate of the fixed list (headed
by the identity) by -dx + 0.1*dz plus a penalty of 1000*(dy-dx) when dx < dy
and 1000*(dz-dy) when dy < dz on the resulting AABB dims, and commits the
first candidate in list order attaining the minimum score; an asset whose dims
already satisfy dx >= dy >= dz (>= 0) selects the identity, whose score is <=
every other candidate's; and on dims (10,5,20) the selected candidate's
resulting dims satisfy dz <= dy. -/
theorem orient_selection_correct :
    orientCandidates.head? = some matId ∧
    (∀ d : Vec3, orientScore d = -d.x + (1 / 10) * d.z +
      ((if d.x < d.y then (d.y - d.x) * 1000 else 0) +
       (if d.y < d.z then (d.z - d.y) * 1000 else 0))) ∧
    (∀ d M, selectOrient d = some M →
      M ∈ orientCandidates ∧
      (∀ N ∈ orientCandidates,
        orientScore (dimsAfter M d) ≤ orientScore (dimsAfter N d)) ∧
      ∃ i, orientCandidates.get? i = some M ∧
        ∀ j N, j < i → orientCandidates.get? j = some N →
          orientScore (dimsAfter M d) < orientScore (dimsAfter N d)) ∧
    (∀ d : Vec3, 0 ≤ d.z → d.z ≤ d.y → d.y ≤ d.x →
      selectOrient d = some matId ∧
      ∀ M ∈ orientCandidates,
        orientScore (dimsAfter matId d) ≤ orientScore (dimsAfter M d)) ∧
    (∃ M, selectOrient ⟨10, 5, 20⟩ = some M ∧
      (dimsAfter M ⟨10, 5, 20⟩).z ≤ (dimsAfter M ⟨10, 5, 20⟩).y) := by
  refine ⟨rfl, fun d => rfl, ?_, ?_, ?_⟩
  · intro d M hsel
    rcases orientStep_foldl_charact d orientCandidates none orientInit with
      ⟨heq, _⟩ | ⟨i, N0, hget, hfold, _, hmin, hfirst⟩
    · exfalso
      unfold selectOrient at hsel
      rw [heq] at hsel
      exact Option.noConfusion hsel
    · unfold selectOrient at hsel
      rw [hfold] at hsel
      have hNM : N0 = M := Option.some.inj hsel
      subst hNM
      exact ⟨List.get?_mem hget, hmin, i, hget, hfirst⟩
  · intro d h0 hzy hyx
    have hmin := orient_sorted_id_min d h0 hzy hyx
    refine ⟨?_, hmin⟩
    apply selectOrient_eq_id_of_min d ?_ hmin
    have hbig : (0 : ℚ) < 10 ^ 18 := by norm_num
    rw [dimsAfter_matId]
    unfold orientScore orientPen orientInit
    rw [if_neg (not_lt.mpr hyx), if_neg (not_lt.mpr hzy)]
    linarith
  · refine ⟨rotY90.mul rotZ90, selectOrient_10_5_20, ?_⟩
    norm_num [dimsAfter, Mat3.mul, rotY90, rotZ90, absq]

/-- C2, witness: the theorem's sorted-dims branch at dims (3,2,1): the search
selects the identity. -/
theorem orient_selection_correct_witness :
    selectOrient ⟨3, 2, 1⟩ = some matId :=
  (orient_selection_correct.2.2.2.1 ⟨3, 2, 1⟩ (by norm_num) (by norm_num)
    (by norm_num)).1

/-- An axis-aligned rectangle in the card's XY plane. -/
structure Rect where
  xmin : ℚ
  xmax : ℚ
  ymin : ℚ
  ymax : ℚ
deriving DecidableEq, Repr

/-- Rectangle from a center and a size, as the planner expresses slots
(regions defined with centers, blender2.py line 800). -/
def rectFromCenter (cx cy w h : ℚ) : Rect :=
  ⟨cx - w / 2, cx + w / 2, cy - h / 2, cy + h / 2⟩

/-! The slot planner of main() in src/PrintMaker/blender2.py, lines 775-777 and
793-828.  W and H denote args.card_width and args.card_height after the
padding subtraction of lines 763-764, i.e. the padded card footprint the
slots are computed in. -/

/-- H_upper = card_height * upper_ratio (line 794). -/
def hUpper (H u : ℚ) : ℚ := H * u

/-- H_lower = card_height - H_upper (line 795). -/
def hLower (H u : ℚ) : ℚ := H - hUpper H u

/-- W_left = card_width * 3/5 (line 797). -/
def wLeft (W : ℚ) : ℚ := W * (3 / 5)

/-- W_right = card_width - W_left (line 798). -/
def wRight (W : ℚ) : ℚ := W - wLeft W

/-- lower_y_min = -card_height/2 (line 803). -/
def lowerYMin (H : ℚ) : ℚ := -(H / 2)

/-- lower_y_max = lower_y_min + H_lower (line 804). -/
def lowerYMax (H u : ℚ) : ℚ := lowerYMin H + hLower H u

/-- lower_y_center = midpoint (line 805). -/
def lowerYCenter (H u : ℚ) : ℚ := (lowerYMin H + lowerYMax H u) / 2

/-- fig_slot_w = W_left (line 813). -/
def figSlotW (W : ℚ) : ℚ := wLeft W

/-- fig_slot_h = H_lower (line 814). -/
def figSlotH (H u : ℚ) : ℚ := hLower H u

/-- acc_slot_w = W_right (line 817). -/
def accSlotW (W : ℚ) : ℚ := wRight W

/-- acc_slot_h = (2/3) * card_height (line 818). -/
def accSlotH (H : ℚ) : ℚ := (2 / 3) * H

/-- acc_y_center = lower_y_center (line 819). -/
def accYCenter (H u : ℚ) : ℚ := lowerYCenter H u

/-- acc_cell_h = acc_slot_h / 3 (line 822). -/
def accCellH (H : ℚ) : ℚ := accSlotH H / 3

/-- left_x_center = -card_width/2 + fig_slot_w/2 (lines 825-826). -/
def leftXCenter (W : ℚ) : ℚ := -(W / 2) + figSlotW W / 2

/-- right_x_center = card_width/2 - acc_slot_w/2 (lines 827-828). -/
def rightXCenter (W : ℚ) : ℚ := W / 2 - accSlotW W / 2

/-- start_y = acc_y_center + acc_slot_h/2 - acc_cell_h/2 (line 861). -/
def accStartY (H u : ℚ) : ℚ := accYCenter H u + accSlotH H / 2 - accCellH H / 2

/-- centers_y[i] = start_y - i*acc_cell_h (line 862). -/
def accCenterY (H u : ℚ) (i : ℕ) : ℚ := accStartY H u - (i : ℚ) * accCellH H

/-- The figure slot: center (left_x_center, lower_y_center), size
fig_slot_w x fig_slot_h. -/
def figSlot (W H u : ℚ) : Rect :=
  rectFromCenter (leftXCenter W) (lowerYCenter H u) (figSlotW W) (figSlotH H u)

/-- The accessory column: center (right_x_center, acc_y_center), size
acc_slot_w x acc_slot_h. -/
def accColumn (W H u : ℚ) : Rect :=
  rectFromCenter (rightXCenter W) (accYCenter H u) (accSlotW W) (accSlotH H)

/-- Accessory cell i (i = 0,1,2, top to bottom): center
(right_x_center, centers_y[i]), size acc_slot_w x acc_cell_h. -/
def accCell (W H u : ℚ) (i : ℕ) : Rect :=
  rectFromCenter (rightXCenter W) (accCenterY H u i) (accSlotW W) (accCellH H)

/-- The text strip: Y from slot_top_y - card_height/5 to
slot_top_y = card_height/2 (lines 776-777), across the padded card width
(the text group is centered on X = 0 inside it). -/
def textStrip (W H : ℚ) : Rect :=
  ⟨-(W / 2), W / 2, H / 2 - H / 5, H / 2⟩

/-- Two rectangles do not overlap: their interiors are disjoint, i.e. they are
separated (possibly touching) along some axis. -/
def Rect.separated (a b : Rect) : Prop :=
  a.xmax ≤ b.xmin ∨ b.xmax ≤ a.xmin ∨ a.ymax ≤ b.ymin ∨ b.ymax ≤ a.ymin

/-- Rectangle containment. -/
def Rect.inside (inner outer : Rect) : Prop :=
  outer.xmin ≤ inner.xmin ∧ inner.xmax ≤ outer.xmax ∧
  outer.ymin ≤ inner.ymin ∧ inner.ymax ≤ outer.ymax

/-- The padded card footprint, centered at the origin. -/
def cardFootprint (W H : ℚ) : Rect := ⟨-(W / 2), W / 2, -(H / 2), H / 2⟩

/-- C3, counterexample: the invariant does not hold for every
upper_ratio in (0,1).  For a 100 x 100 padded card and upper_ratio = 1/10
the figure slot (whose top is at H/2 - H*u = 40) overlaps the text strip
(whose bottom is at H/2 - H/5 = 30); and for upper_ratio = 1/2 the bottom
accessory cell extends below the padded footprint (its bottom, -175/3,
is below -H/2 = -50). -/
theorem slot_invariant_counterexample :
    ((0 : ℚ) < 100 ∧ (0 : ℚ) < 1 / 10 ∧ (1 / 10 : ℚ) < 1 ∧
      ¬ Rect.separated (figSlot 100 100 (1 / 10)) (textStrip 100 100)) ∧
    ((0 : ℚ) < 1 / 2 ∧ (1 / 2 : ℚ) < 1 ∧
      ¬ Rect.inside (accCell 100 100 (1 / 2) 2) (cardFootprint 100 100)) := by
  norm_num [Rect.separated, Rect.inside, figSlot, textStrip, accCell,
    cardFootprint, rectFromCenter, leftXCenter, rightXCenter, lowerYCenter,
    lowerYMin, lowerYMax, hLower, hUpper, figSlotW, figSlotH, wLeft, wRight,
    accCenterY, accStartY, accYCenter, accSlotW, accSlotH, accCellH]

/-- C3, amended: for every padded card width and height > 0 and every
upper_ratio in [1/5, 1/3], the figure slot, the three accessory cells and the
text strip are pairwise non-overlapping and contained in the padded card
footprint.  (The counterexample forces the restriction of upper_ratio: below
1/5 the figure slot crosses into the text strip, above 1/3 the accessory
column leaves the footprint.) -/
theorem slot_invariant_amended (W H u : ℚ) (hW : 0 < W) (hH : 0 < H)
    (hu1 : 1 / 5 ≤ u) (hu2 : u ≤ 1 / 3) :
    Rect.separated (figSlot W H u) (accCell W H u 0) ∧
    Rect.separated (figSlot W H u) (accCell W H u 1) ∧
    Rect.separated (figSlot W H u) (accCell W H u 2) ∧
    Rect.separated (figSlot W H u) (textStrip W H) ∧
    Rect.separated (accCell W H u 0) (accCell W H u 1) ∧
    Rect.separated (accCell W H u 0) (accCell W H u 2) ∧
    Rect.separated (accCell W H u 1) (accCell W H u 2) ∧
    Rect.separated (accCell W H u 0) (textStrip W H) ∧
    Rect.separated (accCell W H u 1) (textStrip W H) ∧
    Rect.separated (accCell W H u 2) (textStrip W H) ∧
    Rect.inside (figSlot W H u) (cardFootprint W H) ∧
    Rect.inside (accCell W H u 0) (cardFootprint W H) ∧
    Rect.inside (accCell W H u 1) (cardFootprint W H) ∧
    Rect.inside (accCell W H u 2) (cardFootprint W H) ∧
    Rect.inside (textStrip W H) (cardFootprint W H) := by
  have hHu1 : H * (1 / 5) ≤ H * u := mul_le_mul_of_nonneg_left hu1 hH.le
  have hHu2 : H * u ≤ H * (1 / 3) := mul_le_mul_of_nonneg_left hu2 hH.le
  simp only [Rect.separated, Rect.inside, figSlot, accCell, textStrip,
    cardFootprint, rectFromCenter, leftXCenter, rightXCenter, lowerYCenter,
    lowerYMin, lowerYMax, hLower, hUpper, figSlotW, figSlotH, wLeft, wRight,
    accSlotW, accSlotH, accCellH, accCenterY, accStartY, accYCenter]
  push_cast
  refine ⟨Or.inl (by linarith), Or.inl (by linarith), Or.inl (by linarith),
    Or.inr (Or.inr (Or.inl (by linarith))),
    Or.inr (Or.inr (Or.inr (by linarith))),
    Or.inr (Or.inr (Or.inr (by linarith))),
    Or.inr (Or.inr (Or.inr (by linarith))),
    Or.inr (Or.inr (Or.inl (by linarith))),
    Or.inr (Or.inr (Or.inl (by linarith))),
    Or.inr (Or.inr (Or.inl (by linarith))),
    ⟨by linarith, by linarith, by linarith, by linarith⟩,
    ⟨by linarith, by linarith, by linarith, by linarith⟩,
    ⟨by linarith, by linarith, by linarith, by linarith⟩,
    ⟨by linarith, by linarith, by linarith, by linarith⟩,
    ⟨by linarith, by linarith, by linarith, by linarith⟩⟩

/-- C3, witness: the amended invariant at a 100 x 100 padded card with
upper_ratio = 1/4 (the source default). -/
theorem slot_invariant_amended_witness :
    Rect.separated (figSlot 100 100 (1 / 4)) (accCell 100 100 (1 / 4) 0) ∧
    Rect.inside (figSlot 100 100 (1 / 4)) (cardFootprint 100 100) :=
  ⟨(slot_invariant_amended 100 100 (1 / 4) (by norm_num) (by norm_num)
      (by norm_num) (by norm_num)).1,
   (slot_invariant_amended 100 100 (1 / 4) (by norm_num) (by norm_num)
      (by norm_num) (by norm_num)).2.2.2.2.2.2.2.2.2.2.1⟩

/-- C4: the planner derives upper band height = card_height * upper_ratio and
lower band = remainder; the figure slot is left-aligned with width 3/5 of the
card width and the lower band's height; the accessory column is right-aligned
with the remaining 2/5 of the card width, has height 2/3 * card_height, is
vertically centered on the lower band's center and is partitioned into exactly
3 equal-height cells top to bottom.  For a 130 x 190 card (padded dims) with
upper_ratio = 0.2: upper band 38, lower band 152, figure slot 78 wide and 152
tall, accessory column 0.4 * 130 = 52 wide and 380/3 (about 126.7) tall, cells
380/9 (about 42.2) tall. -/
theorem planner_derivation :
    (∀ H u : ℚ, hUpper H u = H * u ∧ hLower H u = H - H * u) ∧
    (∀ W : ℚ, figSlotW W = 3 / 5 * W ∧ accSlotW W = 2 / 5 * W) ∧
    (∀ W H u : ℚ,
      (figSlot W H u).xmin = -(W / 2) ∧
      (figSlot W H u).xmax - (figSlot W H u).xmin = 3 / 5 * W ∧
      (figSlot W H u).ymax - (figSlot W H u).ymin = hLower H u ∧
      (figSlot W H u).ymin = lowerYMin H ∧
      (figSlot W H u).ymax = lowerYMax H u) ∧
    (∀ W H u : ℚ,
      (accColumn W H u).xmax = W / 2 ∧
      (accColumn W H u).xmax - (accColumn W H u).xmin = 2 / 5 * W ∧
      (accColumn W H u).ymax - (accColumn W H u).ymin = 2 / 3 * H ∧
      ((accColumn W H u).ymin + (accColumn W H u).ymax) / 2 =
        (lowerYMin H + lowerYMax H u) / 2) ∧
    (∀ W H u : ℚ,
      (accCell W H u 0).ymax = (accColumn W H u).ymax ∧
      (accCell W H u 0).ymin = (accCell W H u 1).ymax ∧
      (accCell W H u 1).ymin = (accCell W H u 2).ymax ∧
      (accCell W H u 2).ymin = (accColumn W H u).ymin ∧
      (∀ i : ℕ, (accCell W H u i).ymax - (accCell W H u i).ymin = 2 / 3 * H / 3) ∧
      (accCell W H u 0).xmin = (accColumn W H u).xmin ∧
      (accCell W H u 0).xmax = (accColumn W H u).xmax) ∧
    (hUpper 190 (1 / 5) = 38 ∧ hLower 190 (1 / 5) = 152 ∧
     figSlotW 130 = 78 ∧ figSlotH 190 (1 / 5) = 152 ∧
     accSlotW 130 = 2 / 5 * 130 ∧ accSlotH 190 = 380 / 3 ∧
     |accSlotH 190 - 1267 / 10| ≤ 1 / 10 ∧
     accCellH 190 = 380 / 9 ∧ |accCellH 190 - 211 / 5| ≤ 1 / 10) := by
  refine ⟨?_, ?_, ?_, ?_, ?_, ?_⟩
  · intro H u
    exact ⟨rfl, rfl⟩
  · intro W
    constructor <;>
      simp only [figSlotW, accSlotW, wLeft, wRight] <;> ring
  · intro W H u
    refine ⟨?_, ?_, ?_, ?_, ?_⟩ <;>
      simp only [figSlot, rectFromCenter, leftXCenter, figSlotW, figSlotH,
        wLeft, lowerYCenter, lowerYMin, lowerYMax, hLower, hUpper] <;> ring
  · intro W H u
    refine ⟨?_, ?_, ?_, ?_⟩ <;>
      simp only [accColumn, rectFromCenter, rightXCenter, accSlotW, accSlotH,
        wRight, wLeft, accYCenter, lowerYCenter, lowerYMin, lowerYMax, hLower,
        hUpper] <;> ring
  · intro W H u
    refine ⟨?_, ?_, ?_, ?_, fun i => ?_, ?_, ?_⟩ <;>
      simp only [accCell, accColumn, rectFromCenter, rightXCenter, accSlotW,
        accSlotH, wRight, wLeft, accCenterY, accStartY, accYCenter, accCellH,
        lowerYCenter, lowerYMin, lowerYMax, hLower, hUpper] <;>
      push_cast <;> ring
  · refine ⟨?_, ?_, ?_, ?_, ?_, ?_, ?_, ?_, ?_⟩ <;>
      norm_num [hUpper, hLower, figSlotW, figSlotH, accSlotW, accSlotH,
        accCellH, wLeft, wRight, abs_le]

/-- Translate a rectangle along X (o.location.x adjustments move the AABB). -/
def Rect.shiftX (r : Rect) (dx : ℚ) : Rect :=
  ⟨r.xmin + dx, r.xmax + dx, r.ymin, r.ymax⟩

/-- Translate a rectangle along Y. -/
def Rect.shiftY (r : Rect) (dy : ℚ) : Rect :=
  ⟨r.xmin, r.xmax, r.ymin + dy, r.ymax + dy⟩

/-- The X-centering loop of place_sub_below_title (blender2.py lines 395-398):
o.location.x -= cx with cx the world AABB X midpoint. -/
def centerXZero (r : Rect) : Rect := r.shiftX (-((r.xmin + r.xmax) / 2))

/-- shift_to_center_y (lines 412-415): move so the AABB Y midpoint lands on
the target center. -/
def shiftToCenterY (r : Rect) (cy : ℚ) : Rect :=
  r.shiftY (cy - (r.ymin + r.ymax) / 2)

/-- place_sub_below_title (lines 388-419) acting on the world AABBs of the two
texts: center each on X, read the Y extents t_h and s_h, then move the title's
center to +(s_h + margin)/2 and the subtitle's center to -(t_h + margin)/2. -/
def place_sub_below_title (title sub : Rect) (margin_MT : ℚ) : Rect × Rect :=
  let t1 := centerXZero title
  let s1 := centerXZero sub
  let t_h := t1.ymax - t1.ymin
  let s_h := s1.ymax - s1.ymin
  (shiftToCenterY t1 ((s_h + margin_MT) / 2),
   shiftToCenterY s1 (-((t_h + margin_MT) / 2)))

/-- The 1e-9 threshold of scale_group_y_to_height (line 445). -/
def scaleEps : ℚ := 1 / 1000000000

/-- The 1e-6 floor on the slot height (line 442). -/
def slotHFloor : ℚ := 1 / 1000000

/-- scale_group_y_to_height (lines 437-463), reduced to the factor it applies:
slot_h = max(1e-6, slot_top_y - slot_bottom_y); when the union height cur_h is
below 1e-9 nothing is done (none); otherwise the uniform factor
min(target_height, slot_h) / cur_h is applied about the union AABB center. -/
def scale_group_y_factor (target_height slot_bottom_y slot_top_y cur_h : ℚ) :
    Option ℚ :=
  let slot_h := max slotHFloor (slot_top_y - slot_bottom_y)
  if cur_h < scaleEps then none
  else some (min target_height slot_h / cur_h)

/-- Uniform scaling about center c (the T @ S @ T.inverted() conjugation of
line 455), acting on a Y coordinate. -/
def scaleAboutY (c s y : ℚ) : ℚ := c + s * (y - c)

/-- Closed form of place_sub_below_title on the two AABBs. -/
lemma place_sub_below_title_eq (title sub : Rect) (mt : ℚ) :
    place_sub_below_title title sub mt =
      (⟨(title.xmin - title.xmax) / 2, (title.xmax - title.xmin) / 2,
        (sub.ymax - sub.ymin + mt) / 2 - (title.ymax - title.ymin) / 2,
        (sub.ymax - sub.ymin + mt) / 2 + (title.ymax - title.ymin) / 2⟩,
       ⟨(sub.xmin - sub.xmax) / 2, (sub.xmax - sub.xmin) / 2,
        -((title.ymax - title.ymin + mt) / 2) - (sub.ymax - sub.ymin) / 2,
        -((title.ymax - title.ymin + mt) / 2) + (sub.ymax - sub.ymin) / 2⟩) := by
  simp only [place_sub_below_title, centerXZero, shiftToCenterY, Rect.shiftX,
    Rect.shiftY, Prod.mk.injEq, Rect.mk.injEq]
  refine ⟨⟨?_, ?_, ?_, ?_⟩, ?_, ?_, ?_, ?_⟩ <;> ring

/-- C5: the composer centers title and subtitle on X = 0, puts the title's
center at +(s_h + margin)/2 and the subtitle's at -(t_h + margin)/2, making
the pre-scale union Y extent exactly t_h + s_h + margin; the scaling step is
skipped when the union height is below 1e-9 and otherwise applies, about the
union center, the factor min(target_height, slot_height)/cur_h, which makes
the union Y extent equal min(target_height, slot_height) and preserves the
center; for t=8, s=5, margin=2, target 20 and slot height 18 the factor is
18/15 = 1.2. -/
theorem text_compose_correct :
    (∀ (title sub : Rect) (mt : ℚ),
      title.ymin ≤ title.ymax → sub.ymin ≤ sub.ymax → 0 ≤ mt →
      (place_sub_below_title title sub mt).1.xmin +
        (place_sub_below_title title sub mt).1.xmax = 0 ∧
      (place_sub_below_title title sub mt).2.xmin +
        (place_sub_below_title title sub mt).2.xmax = 0 ∧
      ((place_sub_below_title title sub mt).1.ymin +
        (place_sub_below_title title sub mt).1.ymax) / 2 =
          (sub.ymax - sub.ymin + mt) / 2 ∧
      ((place_sub_below_title title sub mt).2.ymin +
        (place_sub_below_title title sub mt).2.ymax) / 2 =
          -((title.ymax - title.ymin + mt) / 2) ∧
      max (place_sub_below_title title sub mt).1.ymax
          (place_sub_below_title title sub mt).2.ymax -
        min (place_sub_below_title title sub mt).1.ymin
          (place_sub_below_title title sub mt).2.ymin =
        (title.ymax - title.ymin) + (sub.ymax - sub.ymin) + mt) ∧
    (∀ th sb st ch : ℚ, ch < scaleEps →
      scale_group_y_factor th sb st ch = none) ∧
    (∀ th sb st a b : ℚ, scaleEps ≤ b - a → slotHFloor ≤ st - sb →
      scale_group_y_factor th sb st (b - a) =
        some (min th (st - sb) / (b - a)) ∧
      ∀ f, scale_group_y_factor th sb st (b - a) = some f →
        scaleAboutY ((a + b) / 2) f b - scaleAboutY ((a + b) / 2) f a =
          min th (st - sb) ∧
        (scaleAboutY ((a + b) / 2) f a + scaleAboutY ((a + b) / 2) f b) / 2 =
          (a + b) / 2) ∧
    scale_group_y_factor 20 0 18 15 = some (6 / 5) := by
  refine ⟨?_, ?_, ?_, ?_⟩
  · intro title sub mt ht hs hm
    rw [place_sub_below_title_eq]
    dsimp only
    have h1 : -((title.ymax - title.ymin + mt) / 2) + (sub.ymax - sub.ymin) / 2 ≤
        (sub.ymax - sub.ymin + mt) / 2 + (title.ymax - title.ymin) / 2 := by
      linarith
    have h2 : -((title.ymax - title.ymin + mt) / 2) - (sub.ymax - sub.ymin) / 2 ≤
        (sub.ymax - sub.ymin + mt) / 2 - (title.ymax - title.ymin) / 2 := by
      linarith
    rw [max_eq_left h1, min_eq_right h2]
    refine ⟨by ring, by ring, by ring, by ring, by ring⟩
  · intro th sb st ch hch
    unfold scale_group_y_factor
    rw [if_pos hch]
  · intro th sb st a b hab hslot
    have heps : (0 : ℚ) < scaleEps := by norm_num [scaleEps]
    have hne : b - a ≠ 0 := ne_of_gt (lt_of_lt_of_le heps hab)
    have heq : scale_group_y_factor th sb st (b - a) =
        some (min th (st - sb) / (b - a)) := by
      unfold scale_group_y_factor
      rw [if_neg (not_lt.mpr hab), max_eq_right hslot]
    refine ⟨heq, ?_⟩
    intro f hf
    rw [heq] at hf
    have hfeq : f = min th (st - sb) / (b - a) := (Option.some.inj hf).symm
    constructor
    · have hdiff : scaleAboutY ((a + b) / 2) f b - scaleAboutY ((a + b) / 2) f a =
          f * (b - a) := by
        unfold scaleAboutY
        ring
      rw [hdiff, hfeq, div_mul_cancel₀ _ hne]
    · unfold scaleAboutY
      ring
  · norm_num [scale_group_y_factor, scaleEps, slotHFloor, min_def, max_def]

/-- C5, witness: title AABB of height 8, subtitle of height 5, margin 2: the
pre-scale union Y extent is 15. -/
theorem text_compose_correct_witness :
    max (place_sub_below_title ⟨0, 2, 0, 8⟩ ⟨0, 4, 0, 5⟩ 2).1.ymax
        (place_sub_below_title ⟨0, 2, 0, 8⟩ ⟨0, 4, 0, 5⟩ 2).2.ymax -
      min (place_sub_below_title ⟨0, 2, 0, 8⟩ ⟨0, 4, 0, 5⟩ 2).1.ymin
        (place_sub_below_title ⟨0, 2, 0, 8⟩ ⟨0, 4, 0, 5⟩ 2).2.ymin = 15 := by
  have h := (text_compose_correct.1 ⟨0, 2, 0, 8⟩ ⟨0, 4, 0, 5⟩ 2 (by norm_num)
    (by norm_num) (by norm_num)).2.2.2.2
  rw [h]
  norm_num

/-- A world-space axis-aligned bounding box. -/
structure Box3 where
  xmin : ℚ
  xmax : ℚ
  ymin : ℚ
  ymax : ℚ
  zmin : ℚ
  zmax : ℚ
deriving DecidableEq, Repr

/-- obj.location.z += dz translates the world AABB along Z only. -/
def Box3.translateZ (b : Box3) (dz : ℚ) : Box3 :=
  { b with zmin := b.zmin + dz, zmax := b.zmax + dz }

/-- top_z (blender2.py lines 560-562): world AABB max Z. -/
def top_z (b : Box3) : ℚ := b.zmax

/-- bottom_z (lines 564-566): world AABB min Z. -/
def bottom_z (b : Box3) : ℚ := b.zmin

/-- The Z delta applied by snap_bottom_to_base_top:
(base top + z_offset) - obj bottom (lines 573-574). -/
def snapDz (obj base : Box3) (z_offset : ℚ) : ℚ :=
  top_z base + z_offset - bottom_z obj

/-- snap_bottom_to_base_top (blender2.py lines 568-576): translate obj along Z
by (base top + z_offset) - obj bottom. -/
def snap_bottom_to_base_top (obj base : Box3) (z_offset : ℚ) : Box3 :=
  obj.translateZ (snapDz obj base z_offset)

/-- C6: snap translates only along Z, by (base top + offset) - obj bottom:
the X and Y extents of obj are untouched, both Z faces move by exactly that
delta, and afterwards obj's bottom sits at base top + offset; a second call
with the same base and offset computes a delta of exactly 0 and leaves the
object unchanged (idempotence). -/
theorem snap_correct (obj base : Box3) (z_offset : ℚ) :
    (snap_bottom_to_base_top obj base z_offset).xmin = obj.xmin ∧
    (snap_bottom_to_base_top obj base z_offset).xmax = obj.xmax ∧
    (snap_bottom_to_base_top obj base z_offset).ymin = obj.ymin ∧
    (snap_bottom_to_base_top obj base z_offset).ymax = obj.ymax ∧
    (snap_bottom_to_base_top obj base z_offset).zmin - obj.zmin =
      snapDz obj base z_offset ∧
    (snap_bottom_to_base_top obj base z_offset).zmax - obj.zmax =
      snapDz obj base z_offset ∧
    bottom_z (snap_bottom_to_base_top obj base z_offset) =
      top_z base + z_offset ∧
    snapDz (snap_bottom_to_base_top obj base z_offset) base z_offset = 0 ∧
    snap_bottom_to_base_top (snap_bottom_to_base_top obj base z_offset) base
      z_offset = snap_bottom_to_base_top obj base z_offset := by
  refine ⟨rfl, rfl, rfl, rfl, ?_, ?_, ?_, ?_, ?_⟩ <;>
    simp [snap_bottom_to_base_top, Box3.translateZ, snapDz, top_z, bottom_z,
      Box3.mk.injEq]

/-- world_sizes (blender2.py lines 624-627): the world AABB extents. -/
def world_sizes (b : Box3) : Vec3 :=
  ⟨b.xmax - b.xmin, b.ymax - b.ymin, b.zmax - b.zmin⟩

/-- needs_x_roll (blender2.py lines 634-641): true when the size along global
Y is less than the size along global Z. -/
def needs_x_roll (d : Vec3) : Bool := decide (d.y < d.z)

/-- The roll decisions taken by main() (blender2.py lines 839-881):
needs_roll is computed once from the figure's dims (line 842) and consulted
for the figure (line 844) and, unchanged, inside the accessory loop
(line 870); the accessory's own dims are never tested.  Returns the figure's
flag and the flag used for each accessory. -/
def mainRollFlags (figDims : Vec3) (accDims : List Vec3) : Bool × List Bool :=
  let needs_roll := needs_x_roll figDims
  (needs_roll, accDims.map (fun _ => needs_roll))

/-- C7, evaluation at the failing input: an accessory with dims (1,1,2) is
taller than deep, so needs_x_roll holds for it, but with a figure of dims
(1,2,1) main leaves the accessory unrotated: every accessory is rolled
according to the figure's flag, never its own. -/
theorem accessory_roll_uses_figure_flag :
    needs_x_roll ⟨1, 1, 2⟩ = true ∧
    needs_x_roll ⟨1, 2, 1⟩ = false ∧
    mainRollFlags ⟨1, 2, 1⟩ [⟨1, 1, 2⟩] = (false, [false]) ∧
    (∀ (figDims : Vec3) (accDims : List Vec3),
      (mainRollFlags figDims accDims).2 =
        accDims.map (fun _ => needs_x_roll figDims)) := by
  refine ⟨?_, ?_, ?_, fun figDims accDims => rfl⟩ <;>
    norm_num [needs_x_roll, mainRollFlags]

/-- A scene object as inspected after an import: its Blender type (MESH or
not), its vertex count, and its dimensions (used for the bound-box volume). -/
structure SceneObj where
  isMesh : Bool
  verts : ℕ
  dimx : ℚ
  dimy : ℚ
  dimz : ℚ
deriving DecidableEq, Repr

/-- o.dimensions.x * o.dimensions.y * o.dimensions.z, the sort tiebreaker. -/
def SceneObj.volume (o : SceneObj) : ℚ := o.dimx * o.dimy * o.dimz

/-- Strict comparison of the Python sort keys
(len(o.data.vertices), volume): lexicographic on vertex count then volume. -/
def keyLt (a b : SceneObj) : Prop :=
  a.verts < b.verts ∨ (a.verts = b.verts ∧ a.volume < b.volume)

instance (a b : SceneObj) : Decidable (keyLt a b) := by
  unfold keyLt
  infer_instance

lemma keyLt_irrefl (a : SceneObj) : ¬ keyLt a a := by
  unfold keyLt
  simp

lemma keyLt_trans {a b c : SceneObj} (h1 : keyLt a b) (h2 : keyLt b c) :
    keyLt a c := by
  unfold keyLt at *
  rcases h1 with h1 | ⟨h1e, h1v⟩ <;> rcases h2 with h2 | ⟨h2e, h2v⟩
  · exact Or.inl (lt_trans h1 h2)
  · exact Or.inl (by omega)
  · exact Or.inl (by omega)
  · exact Or.inr ⟨by omega, lt_trans h1v h2v⟩

lemma keyLt_nlt_trans {a b r : SceneObj} (h1 : ¬ keyLt b a) (h2 : ¬ keyLt r b) :
    ¬ keyLt r a := by
  unfold keyLt at *
  push_neg at *
  obtain ⟨h1n, h1v⟩ := h1
  obtain ⟨h2n, h2v⟩ := h2
  refine ⟨by omega, ?_⟩
  intro hra
  have hba : b.verts = a.verts := by omega
  have hrb : r.verts = b.verts := by omega
  exact le_trans (h1v hba) (h2v hrb)

lemma keyLt_of_nlt_of_lt {a b r : SceneObj} (h1 : ¬ keyLt b a)
    (h2 : keyLt b r) : keyLt a r := by
  unfold keyLt at *
  push_neg at h1
  obtain ⟨h1n, h1v⟩ := h1
  rcases h2 with h2 | ⟨h2e, h2v⟩
  · exact Or.inl (by omega)
  · rcases lt_or_eq_of_le h1n with hlt | heq
    · exact Or.inl (by omega)
    · refine Or.inr ⟨by omega, ?_⟩
      have hab : a.volume ≤ b.volume := h1v (by omega)
      exact lt_of_le_of_lt hab h2v

/-- One comparison of the descending-stable-sort head scan: replace the
current best only on a strict key increase (so the earliest of equal keys is
kept, exactly the stability of Python's sort with reverse=True). -/
def bestStep (b o2 : SceneObj) : SceneObj := if keyLt b o2 then o2 else b

/-- Head of meshes.sort(key=lambda o: (len(o.data.vertices), volume),
reverse=True) followed by meshes[0] (blender2.py lines 516-520;
pick_largest_mesh in src/starter_pack_layout.py lines 62-68).  Python's sort
is stable and stable-descending, so the head is the first element of maximal
key, computed here by the scan. -/
def bestMesh : List SceneObj → Option SceneObj
  | [] => none
  | o :: rest => some (rest.foldl bestStep o)

/-- import_model's selection of the primary entity (blender2.py lines
513-525): the best mesh among the newly imported objects; when no mesh was
imported, the first new object if any. -/
def import_model_pick (new : List SceneObj) : Option SceneObj :=
  match bestMesh (new.filter (fun o => o.isMesh)) with
  | some m => some m
  | none => new.head?

/-- Characterisation of the best-mesh scan: the result is the accumulator or a
list element, is never key-below the accumulator nor any element, and when it
differs from the accumulator it sits at a position every earlier element of
which has a strictly smaller key. -/
lemma bestScan_charact (t : List SceneObj) :
    ∀ b : SceneObj,
      (t.foldl bestStep b = b ∨ t.foldl bestStep b ∈ t) ∧
      ¬ keyLt (t.foldl bestStep b) b ∧
      (∀ o ∈ t, ¬ keyLt (t.foldl bestStep b) o) ∧
      (t.foldl bestStep b = b ∨
        (keyLt b (t.foldl bestStep b) ∧
          ∃ i, t.get? i = some (t.foldl bestStep b) ∧
            ∀ j N, j < i → t.get? j = some N →
              keyLt N (t.foldl bestStep b))) := by
  induction t with
  | nil =>
    intro b
    exact ⟨Or.inl rfl, keyLt_irrefl b,
      fun o ho => absurd ho (List.not_mem_nil o), Or.inl rfl⟩
  | cons a t ih =>
    intro b
    rw [List.foldl_cons]
    by_cases h : keyLt b a
    · have hstep : bestStep b a = a := by
        unfold bestStep
        rw [if_pos h]
      rw [hstep]
      obtain ⟨h1, h2, h3, h4⟩ := ih a
      refine ⟨?_, ?_, ?_, ?_⟩
      · rcases h1 with he | hm
        · rw [he]
          exact Or.inr (List.mem_cons_self a t)
        · exact Or.inr (List.mem_cons_of_mem a hm)
      · intro hrb
        exact h2 (keyLt_trans hrb h)
      · intro o ho
        rcases List.mem_cons.mp ho with rfl | hot
        · exact h2
        · exact h3 o hot
      · right
        constructor
        · rcases h4 with he | ⟨har, _⟩
          · rw [he]
            exact h
          · exact keyLt_trans h har
        · rcases h4 with he | ⟨har, i, hget, hfirst⟩
          · refine ⟨0, ?_, fun j N hj _ => absurd hj (Nat.not_lt_zero j)⟩
            rw [he]
            rfl
          · refine ⟨i + 1, hget, ?_⟩
            intro j N hj hgj
            cases j with
            | zero =>
              have hNa : N = a := by
                simpa using hgj.symm
              rw [hNa]
              exact har
            | succ j2 =>
              exact hfirst j2 N (Nat.lt_of_succ_lt_succ hj) (by simpa using hgj)
    · have hstep : bestStep b a = b := by
        unfold bestStep
        rw [if_neg h]
      rw [hstep]
      obtain ⟨h1, h2, h3, h4⟩ := ih b
      refine ⟨?_, h2, ?_, ?_⟩
      · rcases h1 with he | hm
        · exact Or.inl he
        · exact Or.inr (List.mem_cons_of_mem a hm)
      · intro o ho
        rcases List.mem_cons.mp ho with rfl | hot
        · exact keyLt_nlt_trans h h2
        · exact h3 o hot
      · rcases h4 with he | ⟨hbr, i, hget, hfirst⟩
        · exact Or.inl he
        · right
          refine ⟨hbr, i + 1, hget, ?_⟩
          intro j N hj hgj
          cases j with
          | zero =>
            have hNa : N = a := by
              simpa using hgj.symm
            rw [hNa]
            exact keyLt_of_nlt_of_lt h hbr
          | succ j2 =>
            exact hfirst j2 N (Nat.lt_of_succ_lt_succ hj) (by simpa using hgj)

/-- C8: when the imported batch contains at least one mesh, the primary entity
is a mesh whose key (vertex count, then bound-box volume) no imported mesh
exceeds, and every mesh occurring earlier in encounter order has a strictly
smaller key — i.e. greatest vertex count, ties broken by larger volume,
remaining ties toward the first encountered. -/
theorem import_primary_selection (new : List SceneObj)
    (hne : new.filter (fun o => o.isMesh) ≠ []) :
    ∃ m, import_model_pick new = some m ∧
      m ∈ new.filter (fun o => o.isMesh) ∧
      (∀ o ∈ new.filter (fun o => o.isMesh), ¬ keyLt m o) ∧
      ∃ i, (new.filter (fun o => o.isMesh)).get? i = some m ∧
        ∀ j N, j < i → (new.filter (fun o => o.isMesh)).get? j = some N →
          keyLt N m := by
  obtain ⟨a, t, hat⟩ := List.exists_cons_of_ne_nil hne
  have hbm : bestMesh (new.filter (fun o => o.isMesh)) =
      some (t.foldl bestStep a) := by
    rw [hat]
    rfl
  obtain ⟨h1, h2, h3, h4⟩ := bestScan_charact t a
  refine ⟨t.foldl bestStep a, ?_, ?_, ?_, ?_⟩
  · unfold import_model_pick
    rw [hbm]
  · rw [hat]
    rcases h1 with he | hm
    · rw [he]
      exact List.mem_cons_self a t
    · exact List.mem_cons_of_mem a hm
  · intro o ho
    rw [hat] at ho
    rcases List.mem_cons.mp ho with rfl | hot
    · exact h2
    · exact h3 o hot
  · rcases h4 with he | ⟨hbr, i, hget, hfirst⟩
    · refine ⟨0, ?_, fun j N hj _ => absurd hj (Nat.not_lt_zero j)⟩
      rw [hat, he]
      rfl
    · refine ⟨i + 1, ?_, ?_⟩
      · rw [hat]
        simpa using hget
      · intro j N hj hgj
        rw [hat] at hgj
        cases j with
        | zero =>
          have hNa : N = a := by
            simpa using hgj.symm
          rw [hNa]
          exact hbr
        | succ j2 =>
          exact hfirst j2 N (Nat.lt_of_succ_lt_succ hj) (by simpa using hgj)

/-- A sample imported batch for the witness: a non-mesh with many vertices and
three meshes with keys (5, 1), (7, 2) and (7, 1). -/
def sampleImport : List SceneObj :=
  [⟨false, 100, 1, 1, 1⟩, ⟨true, 5, 1, 1, 1⟩, ⟨true, 7, 2, 1, 1⟩,
   ⟨true, 7, 1, 1, 1⟩]

/-- C8, witness: the selection theorem applied to the sample batch. -/
theorem import_primary_selection_witness :
    ∃ m, import_model_pick sampleImport = some m ∧
      m ∈ sampleImport.filter (fun o => o.isMesh) ∧
      (∀ o ∈ sampleImport.filter (fun o => o.isMesh), ¬ keyLt m o) ∧
      ∃ i, (sampleImport.filter (fun o => o.isMesh)).get? i = some m ∧
        ∀ j N, j < i →
          (sampleImport.filter (fun o => o.isMesh)).get? j = some N →
          keyLt N m :=
  import_primary_selection sampleImport (by simp [sampleImport])

/-- One accessory input of main(): whether os.path.exists holds for its path,
and whether import_model returns an object for it. -/
structure AccPath where
  pathOnDisk : Bool
  importsMesh : Bool
deriving DecidableEq, Repr

/-- An entry of the layout JSON's items list, tagged by its source entity: the
card record, the figure record, the record built from the accessory at a given
input position, or the TextGroup record.  (The serialized accessory names are
renumbered by placed order — accessory_1, accessory_2, ... — so the tag tracks
which input accessory a record was built from.) -/
inductive LayoutItem where
  | card : LayoutItem
  | figure : LayoutItem
  | accessory : ℕ → LayoutItem
  | textGroup : LayoutItem
deriving DecidableEq, Repr

/-- The accessory loop of main() (blender2.py lines 857-881), indices from i:
a path failing os.path.exists is skipped with continue, an import yielding no
object likewise; the remaining accessories are placed in input order. -/
def placedAccessoriesAux : ℕ → List AccPath → List ℕ
  | _, [] => []
  | i, a :: rest =>
    if a.pathOnDisk && a.importsMesh then i :: placedAccessoriesAux (i + 1) rest
    else placedAccessoriesAux (i + 1) rest

/-- The input indices of the placed accessories; only the first
min(3, len(acc)) accessories are considered (line 859; parse_args also
truncates to 3). -/
def placedAccessories (accs : List AccPath) : List ℕ :=
  placedAccessoriesAux 0 (accs.take 3)

/-- The items of the layout JSON written by main() (lines 883-936): the card
record, the figure record when the figure import yielded an object, one record
per placed accessory, and the TextGroup record. -/
def layoutItems (figOk : Bool) (accs : List AccPath) : List LayoutItem :=
  [LayoutItem.card] ++ (if figOk then [LayoutItem.figure] else []) ++
    (placedAccessories accs).map LayoutItem.accessory ++ [LayoutItem.textGroup]

/-- Membership in the placed-accessory index list: exactly the offsets whose
accessory exists on disk and imports a mesh. -/
lemma mem_placedAccessoriesAux (l : List AccPath) :
    ∀ i j : ℕ, j ∈ placedAccessoriesAux i l ↔
      ∃ off a, l.get? off = some a ∧ j = i + off ∧
        a.pathOnDisk = true ∧ a.importsMesh = true := by
  induction l with
  | nil =>
    intro i j
    simp [placedAccessoriesAux]
  | cons a t ih =>
    intro i j
    by_cases h : a.pathOnDisk && a.importsMesh
    · rw [placedAccessoriesAux, if_pos h]
      obtain ⟨hp, hm⟩ := Bool.and_eq_true .. |>.mp h
      constructor
      · intro hj
        rcases List.mem_cons.mp hj with rfl | hjt
        · exact ⟨0, a, rfl, by omega, hp, hm⟩
        · obtain ⟨off, a2, hget, hje, hp2, hm2⟩ := (ih (i + 1) j).mp hjt
          exact ⟨off + 1, a2, by simpa using hget, by omega, hp2, hm2⟩
      · rintro ⟨off, a2, hget, rfl, hp2, hm2⟩
        cases off with
        | zero =>
          simp
        | succ off2 =>
          apply List.mem_cons_of_mem
          exact (ih (i + 1) (i + (off2 + 1))).mpr
            ⟨off2, a2, by simpa using hget, by omega, hp2, hm2⟩
    · rw [placedAccessoriesAux, if_neg h]
      constructor
      · intro hj
        obtain ⟨off, a2, hget, hje, hp2, hm2⟩ := (ih (i + 1) j).mp hj
        exact ⟨off + 1, a2, by simpa using hget, by omega, hp2, hm2⟩
      · rintro ⟨off, a2, hget, rfl, hp2, hm2⟩
        cases off with
        | zero =>
          exfalso
          have ha2 : a = a2 := by
            simpa using hget
          subst ha2
          exact h (by rw [hp2, hm2]; rfl)
        | succ off2 =>
          exact (ih (i + 1) (i + (off2 + 1))).mpr
            ⟨off2, a2, by simpa using hget, by omega, hp2, hm2⟩

/-- C9: an accessory whose path does not exist does not abort the job — the
layout is still produced — its slot is skipped so the layout has no record
built from it, and the layout keeps the card record, the figure record (when
the figure import yielded an object), the TextGroup record, and a record for
every other considered accessory whose path exists and imports a mesh. -/
theorem missing_accessory_skipped (figOk : Bool) (accs : List AccPath) (k : ℕ)
    (a : AccPath) (hk : (accs.take 3).get? k = some a)
    (hmiss : a.pathOnDisk = false) :
    LayoutItem.card ∈ layoutItems figOk accs ∧
    LayoutItem.textGroup ∈ layoutItems figOk accs ∧
    (figOk = true → LayoutItem.figure ∈ layoutItems figOk accs) ∧
    LayoutItem.accessory k ∉ layoutItems figOk accs ∧
    (∀ j b, (accs.take 3).get? j = some b → b.pathOnDisk = true →
      b.importsMesh = true →
      LayoutItem.accessory j ∈ layoutItems figOk accs) := by
  refine ⟨?_, ?_, ?_, ?_, ?_⟩
  · simp [layoutItems]
  · simp [layoutItems]
  · intro hfig
    simp [layoutItems, hfig]
  · intro hmem
    have hk2 : k ∈ placedAccessories accs := by
      simpa [layoutItems] using hmem
    obtain ⟨off, a2, hget, hoff, hp2, _⟩ :=
      (mem_placedAccessoriesAux (accs.take 3) 0 k).mp hk2
    have hoffk : off = k := by omega
    subst hoffk
    rw [hk] at hget
    have ha2 : a = a2 := by
      simpa using hget
    subst ha2
    rw [hmiss] at hp2
    exact Bool.false_ne_true hp2
  · intro j b hget hp hm
    have hj : j ∈ placedAccessories accs :=
      (mem_placedAccessoriesAux (accs.take 3) 0 j).mpr
        ⟨j, b, hget, by omega, hp, hm⟩
    simp [layoutItems, hj]

/-- C9, witness: three accessories, the middle one with a missing path: the
layout keeps card, figure, TextGroup and the records of accessories 0 and 2,
and has no record for accessory 1. -/
theorem missing_accessory_skipped_witness :
    LayoutItem.accessory 1 ∉
      layoutItems true [⟨true, true⟩, ⟨false, true⟩, ⟨true, true⟩] ∧
    LayoutItem.accessory 2 ∈
      layoutItems true [⟨true, true⟩, ⟨false, true⟩, ⟨true, true⟩] ∧
    LayoutItem.card ∈
      layoutItems true [⟨true, true⟩, ⟨false, true⟩, ⟨true, true⟩] :=
  ⟨(missing_accessory_skipped true
      [⟨true, true⟩, ⟨false, true⟩, ⟨true, true⟩] 1 ⟨false, true⟩ rfl
      rfl).2.2.2.1,
   (missing_accessory_skipped true
      [⟨true, true⟩, ⟨false, true⟩, ⟨true, true⟩] 1 ⟨false, true⟩ rfl
      rfl).2.2.2.2 2 ⟨true, true⟩ rfl rfl rfl,
   (missing_accessory_skipped true
      [⟨true, true⟩, ⟨false, true⟩, ⟨true, true⟩] 1 ⟨false, true⟩ rfl
      rfl).1⟩

/-- A scene object of the Blender script generated by
src/PrintMaker/starter_pack_layout.py: its name, whether it is a MESH, whether
its data block is present, and its vertex count. -/
structure PMMesh where
  name : String
  isMesh : Bool
  hasData : Bool
  verts : ℕ
deriving DecidableEq, Repr

/-- The placeholder cube created on an import failure (generated script lines
655-661, 696-701 and 705-710): a primitive cube renamed <name>_PLACEHOLDER
with scale (5,5,5) — a mesh object with geometry. -/
def placeholderFor (nm : String) : PMMesh :=
  { name := nm ++ "_PLACEHOLDER", isMesh := true, hasData := true, verts := 8 }

/-- One comparison of find_best_mesh_object's loop (lines 548-551):
if obj.data and len(obj.data.vertices) > max_vertices, take obj. -/
def bestVertStep (acc : Option PMMesh × ℕ) (o : PMMesh) : Option PMMesh × ℕ :=
  if o.hasData && decide (acc.2 < o.verts) then (some o, o.verts) else acc

/-- find_best_mesh_object (lines 536-557): among the MESH objects, the first
one of strictly greatest vertex count, with max_vertices initialised to 0
(so a batch of zero-vertex meshes yields none). -/
def find_best_mesh_object (objs : List PMMesh) : Option PMMesh :=
  ((objs.filter (fun o => o.isMesh)).foldl bestVertStep
    ((none : Option PMMesh), 0)).1

/-- Python's str.lower, restricted to the ASCII names appearing here. -/
def asciiLower (c : Char) : Char :=
  if 65 ≤ c.toNat ∧ c.toNat ≤ 90 then Char.ofNat (c.toNat + 32) else c

/-- The characters of name.lower(). -/
def lowerData (nm : String) : List Char := nm.data.map asciiLower

/-- name.lower().startswith(pre), on character lists. -/
def startsWithLower (nm pre : String) : Bool :=
  (lowerData nm).take pre.data.length == pre.data

/-- The role classification of dump_layout_json (generated script lines
256-258): "figure" when the lowercased name starts with "figure", "accessory"
likewise, else "other". -/
def roleOf (nm : String) : String :=
  if startsWithLower nm "figure" then "figure"
  else if startsWithLower nm "accessory" then "accessory"
  else "other"

/-- A record of the generated script's layout JSON (name and role; the
geometry fields are read from the object without affecting inclusion). -/
structure PMRecord where
  name : String
  role : String
deriving DecidableEq, Repr

/-- dump_layout_json (lines 250-284): one record per MESH object of the
scene, in scene order, with the prefix-derived role. -/
def pmDumpItems (scene : List PMMesh) : List PMRecord :=
  (scene.filter (fun o => o.isMesh)).map (fun o => ⟨o.name, roleOf o.name⟩)

/-- import_model of the generated script (lines 649-710): a falsy filepath,
the literal string "None" or a path missing on disk yields a placeholder
immediately; a raised import (modelled by none) yields a placeholder; when
objects arrive, the best mesh is renamed to the requested name and returned,
and a placeholder is returned when no mesh qualifies.  The function always
returns an object — no error propagates to the caller. -/
def import_model_pm (pathTruthy pathIsNoneString pathOnDisk : Bool)
    (importResult : Option (List PMMesh)) (nm : String) : PMMesh :=
  if !pathTruthy || pathIsNoneString || !pathOnDisk then placeholderFor nm
  else
    match importResult with
    | none => placeholderFor nm
    | some objs =>
      match find_best_mesh_object objs with
      | some m => { m with name := nm }
      | none => placeholderFor nm

/-- calculate_scale_for_area (lines 712-729): per-axis target/current ratios,
1.0 on a degenerate axis, the smaller of the two. -/
def calculate_scale_for_area (dims : Vec3) (target_width target_height : ℚ) :
    ℚ :=
  let scale_x := if 0 < dims.x then target_width / dims.x else 1
  let scale_y := if 0 < dims.y then target_height / dims.y else 1
  min scale_x scale_y

/-- BASE_THICKNESS of the generated script (line 345). -/
def pmBaseThickness : ℚ := 5

/-- debug_position_object (lines 731-816), reduced to the transform it
applies to the object's post-rotation dims: the uniform scale (area fit times
the per-type multiplier) and the location
(target_x, target_y, BASE_THICKNESS + scaled_z/2).  main() calls it
unconditionally on whatever import_model returned, placeholders included. -/
def debug_position_object (dims : Vec3) (tx ty tw th mult : ℚ) :
    ℚ × (ℚ × ℚ × ℚ) :=
  let s := calculate_scale_for_area dims tw th * mult
  (s, (tx, ty, pmBaseThickness + dims.z * s / 2))

/-- The scan of find_best_mesh_object only ever stores meshes of the list in
its accumulator. -/
lemma bestVertStep_foldl_mesh :
    ∀ (l : List PMMesh) (acc : Option PMMesh × ℕ),
      (∀ o ∈ l, o.isMesh = true) →
      (∀ x, acc.1 = some x → x.isMesh = true) →
      ∀ x, (l.foldl bestVertStep acc).1 = some x → x.isMesh = true := by
  intro l
  induction l with
  | nil =>
    intro acc _ hacc x hx
    exact hacc x hx
  | cons a t ih =>
    intro acc hl hacc x hx
    rw [List.foldl_cons] at hx
    refine ih _ (fun o ho => hl o (List.mem_cons_of_mem a ho)) ?_ x hx
    intro y hy
    by_cases h : a.hasData && decide (acc.2 < a.verts)
    · unfold bestVertStep at hy
      rw [if_pos h] at hy
      have hya : a = y := by
        simpa using hy
      rw [← hya]
      exact hl a (List.mem_cons_self a t)
    · unfold bestVertStep at hy
      rw [if_neg h] at hy
      exact hacc y hy

/-- When find_best_mesh_object returns an object, it is a mesh. -/
lemma find_best_isMesh (objs : List PMMesh) (m : PMMesh)
    (h : find_best_mesh_object objs = some m) : m.isMesh = true := by
  unfold find_best_mesh_object at h
  refine bestVertStep_foldl_mesh (objs.filter (fun o => o.isMesh))
    ((none : Option PMMesh), 0) ?_ ?_ m h
  · intro o ho
    exact (List.mem_filter.mp ho).2
  · intro x hx
    exact Option.noConfusion hx

/-- C10: the generated script's import_model always returns a mesh object; on
a falsy path, the literal "None", a missing file, a raised import or a
meshless import it returns the placeholder cube named <name>_PLACEHOLDER;
the returned object is positioned like any asset (its location is set to the
slot center) and serialized by dump_layout_json like any mesh, the
placeholder names classifying under the same figure/accessory roles — the
slot is never skipped and no error propagates. -/
theorem placeholder_pipeline :
    (∀ (pt pn pod : Bool) (ir : Option (List PMMesh)) (nm : String),
      (import_model_pm pt pn pod ir nm).isMesh = true) ∧
    (∀ (ir : Option (List PMMesh)) (nm : String) (pt pn pod : Bool),
      (pt = false ∨ pn = true ∨ pod = false) →
      import_model_pm pt pn pod ir nm = placeholderFor nm) ∧
    (∀ nm : String,
      import_model_pm true false true none nm = placeholderFor nm) ∧
    (∀ (objs : List PMMesh) (nm : String),
      find_best_mesh_object objs = none →
      import_model_pm true false true (some objs) nm = placeholderFor nm) ∧
    (∀ nm : String, (placeholderFor nm).name = nm ++ "_PLACEHOLDER") ∧
    (roleOf (placeholderFor "Figure").name = "figure" ∧
      roleOf (placeholderFor "Accessory_1").name = "accessory" ∧
      roleOf "Figure" = "figure" ∧ roleOf "Accessory_1" = "accessory") ∧
    (∀ (scene : List PMMesh) (o : PMMesh), o ∈ scene → o.isMesh = true →
      (⟨o.name, roleOf o.name⟩ : PMRecord) ∈ pmDumpItems scene) ∧
    (∀ (dims : Vec3) (tx ty tw th mult : ℚ),
      (debug_position_object dims tx ty tw th mult).2.1 = tx ∧
      (debug_position_object dims tx ty tw th mult).2.2.1 = ty) := by
  refine ⟨?_, ?_, ?_, ?_, fun nm => rfl, ?_, ?_, ?_⟩
  · intro pt pn pod ir nm
    unfold import_model_pm
    by_cases hc : (!pt || pn || !pod) = true
    · rw [if_pos hc]
      rfl
    · rw [if_neg hc]
      match ir with
      | none => rfl
      | some objs =>
        cases hfb : find_best_mesh_object objs with
        | none =>
          simp only [hfb]
          rfl
        | some m =>
          simp only [hfb]
          exact find_best_isMesh objs m hfb
  · intro ir nm pt pn pod h
    have hc : (!pt || pn || !pod) = true := by
      rcases h with rfl | rfl | rfl <;> simp
    unfold import_model_pm
    rw [if_pos hc]
  · intro nm
    rfl
  · intro objs nm hfb
    unfold import_model_pm
    simp only [hfb]
    rfl
  · refine ⟨by decide, by decide, by decide, by decide⟩
  · intro scene o ho hm
    unfold pmDumpItems
    exact List.mem_map.mpr ⟨o, List.mem_filter.mpr ⟨ho, hm⟩, rfl⟩
  · intro dims tx ty tw th mult
    exact ⟨rfl, rfl⟩

/-- C10, witness: a missing figure path yields the figure placeholder. -/
theorem placeholder_pipeline_witness :
    import_model_pm false false false none "Figure" = placeholderFor "Figure" :=
  placeholder_pipeline.2.1 none "Figure" false false false (Or.inl rfl)
